import Mathlib

/-!
Verification of the vending-machine state-machine core in
`vending_machine_version_6_fixed.py`.

The embedding below translates the `Money`, `Coins`, `Products` classes,
the four `State` subclasses and `VendingMachine.update` into executable
Lean definitions.  GUI rendering, GPIO handling and debug printing are
omitted (display-only); the observable actuator effects (one signal per
coin dispensed in the change loop, one signal per product dispensed) are
collected in a `Signal` list returned alongside the new machine state.
-/

namespace Vending

/-- The `Money` class: a single non-negative cent balance (`self.amount`,
initialised to 0 and only changed by guarded `subtract`/`add`/`clear`). -/
structure Money where
  amount : Nat
  deriving DecidableEq, Repr

/-- Method `Money.add`: `self.amount += value`. -/
def Money.add (m : Money) (value : Nat) : Money :=
  ⟨m.amount + value⟩

/-- Method `Money.subtract`: subtracts only when `value <= self.amount`, returning
the success flag together with the updated balance; on failure the balance
is unchanged. -/
def Money.subtract (m : Money) (value : Nat) : Bool × Money :=
  if value ≤ m.amount then (true, ⟨m.amount - value⟩) else (false, m)

/-- Method `Money.get_amount`: returns `self.amount`. -/
def Money.get_amount (m : Money) : Nat :=
  m.amount

/-- Method `Money.clear`: sets `self.amount = 0`.  The Python method body ends
without a `return` statement, so its caller receives `None`; the `Option
Nat` component records that returned value explicitly (always `none`) so
it can be compared against the specified contract. -/
def Money.clear (_m : Money) : Option Nat × Money :=
  (none, ⟨0⟩)

/-- The coin catalog built by `setup_coins`: an insertion-ordered list of
`(key, name, value)` triples mirroring the `Coins.denominations` dict. -/
def setup_coins : List (String × String × Nat) :=
  [("5", "5¢", 5), ("10", "10¢", 10), ("25", "25¢", 25),
   ("100", "$1", 100), ("200", "$2", 200)]

/-- The product catalog built by `setup_products`: an insertion-ordered
list of `(key, name, price)` triples mirroring the `Products.items` dict. -/
def setup_products : List (String × String × Nat) :=
  [("surprise", "SURPRISE", 5), ("chips", "CHIPS", 50),
   ("candy", "CANDY", 75), ("soda", "SODA", 100), ("gum", "GUM", 25),
   ("cookies", "COOKIES", 85), ("water", "WATER", 95),
   ("juice", "JUICE", 125), ("crackers", "CRACKERS", 60),
   ("nuts", "NUTS", 150)]

/-- Method `Coins.coin_exists`: `key in self.denominations`. -/
def coin_exists (key : String) : Bool :=
  setup_coins.any (fun c => c.1 == key)

/-- Method `Coins.get_coin`: `self.denominations.get(key)`. -/
def get_coin (key : String) : Option (String × Nat) :=
  (setup_coins.find? (fun c => c.1 == key)).map (fun c => c.2)

/-- Method `Products.product_exists`: `key in self.items`. -/
def product_exists (key : String) : Bool :=
  setup_products.any (fun p => p.1 == key)

/-- Method `Products.get_product`: `self.items.get(key)`. -/
def get_product (key : String) : Option (String × Nat) :=
  (setup_products.find? (fun p => p.1 == key)).map (fun p => p.2)

/-- One step of Python's `sorted(values, reverse=True)`: stable insertion
of `x` into a descending-sorted list. -/
def insertDesc (x : Nat) : List Nat → List Nat
  | [] => [x]
  | y :: ys => if y ≤ x then x :: y :: ys else y :: insertDesc x ys

/-- Descending stable sort, modelling `sorted(values, reverse=True)`. -/
def sortDesc (l : List Nat) : List Nat :=
  l.foldr insertDesc []

/-- Method `Coins.get_values`: the coin face values sorted descending. -/
def get_values : List Nat :=
  sortDesc (setup_coins.map (fun c => c.2.2))

/-- Field `VendingMachine.coin_values`, cached in `__init__` as
`self.coins.get_values()`. -/
def coin_values : List Nat :=
  get_values

/-- The four registered state names of the machine. -/
inductive StateName where
  | waiting
  | add_coins
  | deliver_product
  | count_change
  deriving DecidableEq, Repr

/-- The machine state observable between `update` calls: current state
object, the `Money` ledger, and `self.change_due`. -/
structure VM where
  state : StateName
  money : Money
  change_due : Nat
  deriving DecidableEq, Repr

/-- The observable actuator effects of one `update` call.
`dispenseCoin v` is one per-coin LED blink in `CountChangeState.update`
(one "Returning v cents" unit); `dispenseProduct` is the servo actuation
in `DeliverProductState.on_entry`; `subtractFailed` marks the failure
branch of `Money.subtract` being taken inside `on_entry` (the source logs
"Cannot subtract" there and dispenses anyway); `crash` marks the
`TypeError` Python would raise in `on_entry` if `get_product` returned
`None` (unreachable from the guarded call site). -/
inductive Signal where
  | dispenseCoin (value : Nat)
  | dispenseProduct (name : String)
  | subtractFailed
  | crash
  deriving DecidableEq, Repr

/-- Method `VendingMachine.add_coin`: look the key up and credit its face value;
a missing key is silently ignored (`if coin_info:`). -/
def add_coin_vm (vm : VM) (key : String) : VM :=
  match get_coin key with
  | some nv => { vm with money := vm.money.add nv.2 }
  | none => vm

/-- Entry action `DeliverProductState.on_entry`: re-fetch the product for the pending
event, debit its price (result unchecked in the source), dispense, then
`go_to_state('add_coins')` — all within the same `update` invocation
(entry/exit of `add_coins` are `pass`). -/
def deliver_on_entry (vm : VM) (event : String) : VM × List Signal :=
  match get_product event with
  | some np =>
    let r := vm.money.subtract np.2
    ({ vm with state := StateName.add_coins, money := r.2 },
     (if r.1 then [] else [Signal.subtractFailed]) ++ [Signal.dispenseProduct np.1])
  | none => ({ vm with state := StateName.deliver_product }, [Signal.crash])

/-- Method `WaitingState.update`: a recognised coin credits the ledger and moves
to `add_coins`; a product key or `RETURN` only prints a message; anything
else falls through unchanged. -/
def waiting_update (vm : VM) (event : String) : VM × List Signal :=
  if coin_exists event then
    ({ add_coin_vm vm event with state := StateName.add_coins }, [])
  else if product_exists event then
    (vm, [])
  else if event == "RETURN" then
    (vm, [])
  else
    (vm, [])

/-- Method `AddCoinsState.update`: `RETURN` captures the balance as
`change_due`, clears the ledger and moves to `count_change`; a coin
credits and stays; a product with sufficient balance enters
`deliver_product` (whose entry action runs immediately), otherwise the
rejection only prints; unknown events fall through unchanged. -/
def add_coins_update (vm : VM) (event : String) : VM × List Signal :=
  if event == "RETURN" then
    let owed := vm.money.get_amount
    let m2 := (vm.money.clear).2
    ({ state := StateName.count_change, money := m2, change_due := owed }, [])
  else if coin_exists event then
    (add_coin_vm vm event, [])
  else if product_exists event then
    match get_product event with
    | some np =>
      if np.2 ≤ vm.money.get_amount then
        deliver_on_entry vm event
      else
        (vm, [])
    | none => (vm, [])
  else
    (vm, [])

/-- The inner `while machine.change_due >= coin_value` loop of
`CountChangeState.update` for a single denomination `c`: repeatedly
dispense one coin of value `c`.  The `fuel` argument only bounds the
recursion; `fuel = due` is provably sufficient whenever `0 < c`, which
holds for every shipped denomination (for `c = 0` the source loop would
not terminate, while this model stops when the fuel runs out). -/
def coinLoopFuel : Nat → Nat → Nat → Nat × List Nat
  | 0, _, due => (due, [])
  | Nat.succ fuel, c, due =>
    if c ≤ due then
      let r := coinLoopFuel fuel c (due - c)
      (r.1, c :: r.2)
    else
      (due, [])

/-- The single-denomination dispensing loop at sufficient fuel. -/
def coinLoop (c due : Nat) : Nat × List Nat :=
  coinLoopFuel due c due

/-- The outer `for coin_value in machine.coin_values` loop of
`CountChangeState.update`: remaining owed amount and dispensed coins in
emission order. -/
def countChangeLoop : List Nat → Nat → Nat × List Nat
  | [], due => (due, [])
  | c :: rest, due =>
    let r1 := coinLoop c due
    let r2 := countChangeLoop rest r1.1
    (r2.1, r1.2 ++ r2.2)

/-- Method `CountChangeState.update`: run the greedy dispensing loops over
`coin_values`, then `go_to_state('waiting')` only when `change_due`
reached exactly 0 (the event is never consulted). -/
def count_change_update (vm : VM) : VM × List Signal :=
  let r := countChangeLoop coin_values vm.change_due
  let vm1 : VM := { vm with change_due := r.1 }
  if r.1 == 0 then
    ({ vm1 with state := StateName.waiting }, r.2.map Signal.dispenseCoin)
  else
    (vm1, r.2.map Signal.dispenseCoin)

/-- Method `VendingMachine.update`: dispatch one event to the current state
object.  `DeliverProductState` defines no `update` override, so in that
state the inherited `State.update` (`pass`) applies. -/
def update (vm : VM) (event : String) : VM × List Signal :=
  match vm.state with
  | StateName.waiting => waiting_update vm event
  | StateName.add_coins => add_coins_update vm event
  | StateName.deliver_product => (vm, [])
  | StateName.count_change => count_change_update vm

/-- The machine right after `__main__` setup: `go_to_state('waiting')`
with a fresh `Money()` ledger and `change_due = 0` (the entry action of
`waiting` is `pass`). -/
def initVM : VM :=
  ⟨StateName.waiting, ⟨0⟩, 0⟩

/-- Feed a list of events through `update`, concatenating the emitted
signals — the behaviour of the main event loop on that event sequence. -/
def run (vm : VM) : List String → VM × List Signal
  | [] => (vm, [])
  | e :: es =>
    let r1 := update vm e
    let r2 := run r1.1 es
    (r2.1, r1.2 ++ r2.2)

/-- Face value looked up for a coin key (0 for an unknown key, which
`add_coin` ignores). -/
def coinValue (key : String) : Nat :=
  match get_coin key with
  | some nv => nv.2
  | none => 0

/-- Total face value of a list of coin keys. -/
def coinSum (keys : List String) : Nat :=
  (keys.map coinValue).sum

/-- Recognises the signal emitted by the failure branch of the ledger
debit inside `DeliverProductState.on_entry`. -/
def isSubtractFailed : Signal → Bool
  | Signal.subtractFailed => true
  | _ => false

/-- The machine states reachable from startup by any event sequence. -/
inductive Reachable : VM → Prop
  | init : Reachable initVM
  | step (vm : VM) (e : String) : Reachable vm → Reachable (update vm e).1

/-- Claim C1 counterexample: in `count_change` with an unrepresentable
owed amount of 3 cents and denominations {5,10,25,100,200}, an `update`
call dispenses nothing, signals no error, and leaves the machine in
`count_change` with `change_due` still 3 — it does not transition to the
Waiting state as the claim asserts. -/
theorem c1_counterexample :
    (update ⟨StateName.count_change, ⟨0⟩, 3⟩ "__TIMEOUT__").1.state =
      StateName.count_change ∧
    (update ⟨StateName.count_change, ⟨0⟩, 3⟩ "__TIMEOUT__").1.state ≠
      StateName.waiting ∧
    (update ⟨StateName.count_change, ⟨0⟩, 3⟩ "__TIMEOUT__").2 = [] ∧
    (update ⟨StateName.count_change, ⟨0⟩, 3⟩ "__TIMEOUT__").1.change_due = 3 := by
  decide

/-- Claim C1 (amended): when the owed amount 3 cannot be expressed with
the denominations {5,10,25,100,200}, the change-return does not loop
forever — every `update` call terminates having dispensed nothing — but
no error of any kind is signalled and the machine stays in
`count_change` with the residual owed amount for any number of further
events; it never transitions to Waiting. -/
theorem c1_amended (e : String) (n : Nat) :
    run ⟨StateName.count_change, ⟨0⟩, 3⟩ (List.replicate n e) =
      (⟨StateName.count_change, ⟨0⟩, 3⟩, []) := by
  induction n with
  | zero => rfl
  | succ n ih =>
    have h1 : update ⟨StateName.count_change, ⟨0⟩, 3⟩ e =
        (⟨StateName.count_change, ⟨0⟩, 3⟩, []) := rfl
    simp [List.replicate, run, h1, ih]

/-- Claim C2 counterexample: `"bogus"` is neither a coin id, a product
id, nor `RETURN`, yet in the reachable `count_change` state obtained by
inserting a nickel and pressing return, an `update` with `"bogus"`
changes the machine state from `count_change` to `waiting`. -/
theorem c2_counterexample :
    coin_exists "bogus" = false ∧
    product_exists "bogus" = false ∧
    ("bogus" == "RETURN") = false ∧
    (update (update initVM "5").1 "RETURN").1.state = StateName.count_change ∧
    (update (update (update initVM "5").1 "RETURN").1 "bogus").1.state =
      StateName.waiting ∧
    StateName.waiting ≠ StateName.count_change := by
  decide

/-- Claim C2 (amended): in the `waiting` and `add_coins` states, an
`update` with an event id that is not a coin id, not a product id and
not `RETURN` changes neither the ledger balance nor the state and emits
nothing (hence is a no-op any number of times); in `count_change` the
event is ignored but the update itself dispenses change and can move the
machine to `waiting`. -/
theorem c2_amended (vm : VM) (e : String)
    (hs : vm.state = StateName.waiting ∨ vm.state = StateName.add_coins)
    (hc : coin_exists e = false) (hp : product_exists e = false)
    (hr : (e == "RETURN") = false) :
    update vm e = (vm, []) := by
  rcases vm with ⟨st, m, cd⟩
  rcases hs with h | h <;> simp only at h <;> subst h
  · simp [update, waiting_update, hc, hp, hr]
  · simp [update, add_coins_update, hc, hp, hr]

/-- Claim C2 witness: the no-op at a concrete state and concrete
unknown event. -/
theorem c2_amended_witness : update initVM "bogus" = (initVM, []) :=
  c2_amended initVM "bogus" (Or.inl rfl) (by decide) (by decide) (by decide)

/-- Claim C3 counterexample: `Money.clear` on a 30-cent balance resets
the balance to 0 but returns `None` — not the 30 cents that were
cleared, contrary to the claimed contract. -/
theorem c3_counterexample :
    ((⟨30⟩ : Money).clear).2.amount = 0 ∧
    ((⟨30⟩ : Money).clear).1 = none ∧
    ((⟨30⟩ : Money).clear).1 ≠ some ((⟨30⟩ : Money).get_amount) := by
  decide

/-- Claim C3 (amended): for every ledger, `clear` resets the balance to
0 and returns no value (`None`); the refund path obtains the cleared
amount by calling `get_amount` before `clear`, as the `RETURN`
transition out of `add_coins` shows. -/
theorem c3_amended (m : Money) (cd : Nat) :
    m.clear = (none, (⟨0⟩ : Money)) ∧
    update ⟨StateName.add_coins, m, cd⟩ "RETURN" =
      (⟨StateName.count_change, ⟨0⟩, m.get_amount⟩, []) :=
  ⟨rfl, rfl⟩

/-- Claim C4: `Money.subtract` succeeds exactly when the debit amount is
at most the balance, leaving `balance - amount`; otherwise it fails and
leaves the balance unchanged, so the balance never goes negative. -/
theorem c4_debit (m : Money) (a : Nat) :
    (a ≤ m.amount → m.subtract a = (true, ⟨m.amount - a⟩)) ∧
    (m.amount < a → m.subtract a = (false, m)) := by
  constructor
  · intro h
    simp [Money.subtract, h]
  · intro h
    simp [Money.subtract, Nat.not_le.mpr h]

/-- Claim C4 witness: a successful debit of 25 from 30 and a failed
debit of 40 from 30. -/
theorem c4_debit_witness :
    (⟨30⟩ : Money).subtract 25 = (true, ⟨5⟩) ∧
    (⟨30⟩ : Money).subtract 40 = (false, ⟨30⟩) :=
  ⟨(c4_debit ⟨30⟩ 25).1 (by decide), (c4_debit ⟨30⟩ 40).2 (by decide)⟩

/-- Claim C5: with denominations sorted descending to [200,100,25,10,5],
a `RETURN` in `add_coins` at balance 30 captures owed = 30 and clears
the ledger; the change-dispensing update then emits exactly the signals
for one 25-cent and one 5-cent coin, in that order, ending in `waiting`
with balance 0. -/
theorem c5_scenario_b :
    get_values = [200, 100, 25, 10, 5] ∧
    update ⟨StateName.add_coins, ⟨30⟩, 0⟩ "RETURN" =
      (⟨StateName.count_change, ⟨0⟩, 30⟩, []) ∧
    update ⟨StateName.count_change, ⟨0⟩, 30⟩ "__TIMEOUT__" =
      (⟨StateName.waiting, ⟨0⟩, 0⟩,
       [Signal.dispenseCoin 25, Signal.dispenseCoin 5]) := by
  decide

/-- Claim C6: product "gum" costs 25; from startup, inserting three
10-cent coins reaches `add_coins` with balance 30, and selecting "gum"
passes through `deliver_product`, debits exactly 25 leaving balance 5,
emits the product dispense signal, and returns to `add_coins` (not
`waiting`). -/
theorem c6_scenario_a :
    get_product "gum" = some ("GUM", 25) ∧
    run initVM ["10", "10", "10"] = (⟨StateName.add_coins, ⟨30⟩, 0⟩, []) ∧
    update ⟨StateName.add_coins, ⟨30⟩, 0⟩ "gum" =
      (⟨StateName.add_coins, ⟨5⟩, 0⟩, [Signal.dispenseProduct "GUM"]) := by
  decide

/-! ### Helper lemmas about the catalogs and the dispensing loops -/

/-- A key found in the coin catalog is not the reserved return event, and
its face value is a positive multiple of 5. -/
theorem coin_key_facts (e : String) (nv : String × Nat)
    (h : get_coin e = some nv) :
    (e == "RETURN") = false ∧ 0 < nv.2 ∧ 5 ∣ nv.2 := by
  unfold get_coin at h
  obtain ⟨c, hfind, hmap⟩ := Option.map_eq_some'.mp h
  have hmem : c ∈ setup_coins := List.mem_of_find?_eq_some hfind
  have hpred : (c.1 == e) = true := by simpa using List.find?_some hfind
  have he : e = c.1 := (beq_iff_eq.mp hpred).symm
  subst he
  subst hmap
  exact (by decide :
    ∀ x ∈ setup_coins, (x.1 == "RETURN") = false ∧ 0 < x.2.2 ∧ 5 ∣ x.2.2) c hmem

/-- A key found in the product catalog is not a coin key and not the
reserved return event, and its price is a positive multiple of 5. -/
theorem product_key_facts (e : String) (np : String × Nat)
    (h : get_product e = some np) :
    coin_exists e = false ∧ (e == "RETURN") = false ∧ 0 < np.2 ∧ 5 ∣ np.2 := by
  unfold get_product at h
  obtain ⟨c, hfind, hmap⟩ := Option.map_eq_some'.mp h
  have hmem : c ∈ setup_products := List.mem_of_find?_eq_some hfind
  have hpred : (c.1 == e) = true := by simpa using List.find?_some hfind
  have he : e = c.1 := (beq_iff_eq.mp hpred).symm
  subst he
  subst hmap
  exact (by decide :
    ∀ x ∈ setup_products, coin_exists x.1 = false ∧ (x.1 == "RETURN") = false ∧
      0 < x.2.2 ∧ 5 ∣ x.2.2) c hmem

/-- A positive `coin_exists` check implies `get_coin` finds an entry. -/
theorem coin_exists_get (e : String) (h : coin_exists e = true) :
    ∃ nv, get_coin e = some nv := by
  unfold coin_exists at h
  obtain ⟨c, hmem, hpred⟩ := List.any_eq_true.mp h
  unfold get_coin
  cases hfind : setup_coins.find? (fun c => c.1 == e) with
  | some d => exact ⟨d.2, rfl⟩
  | none => exact absurd hpred (by simpa using List.find?_eq_none.mp hfind c hmem)

/-- A successful `get_product` lookup implies `product_exists`. -/
theorem product_exists_of_get (e : String) (np : String × Nat)
    (h : get_product e = some np) : product_exists e = true := by
  unfold get_product at h
  obtain ⟨c, hfind, _⟩ := Option.map_eq_some'.mp h
  have hpred : (c.1 == e) = true := by simpa using List.find?_some hfind
  exact List.any_eq_true.mpr ⟨c, List.mem_of_find?_eq_some hfind, hpred⟩

/-- Crediting a coin via `add_coin` never touches the state name or the owed change. -/
theorem add_coin_vm_state (vm : VM) (k : String) :
    (add_coin_vm vm k).state = vm.state ∧
    (add_coin_vm vm k).change_due = vm.change_due := by
  unfold add_coin_vm
  split <;> exact ⟨rfl, rfl⟩

/-- Crediting a recognised or unrecognised coin key preserves
divisibility of the balance by 5. -/
theorem add_coin_vm_dvd (vm : VM) (k : String) (h : 5 ∣ vm.money.amount) :
    5 ∣ (add_coin_vm vm k).money.amount := by
  unfold add_coin_vm
  split
  · next nv heq =>
    exact Nat.dvd_add h (coin_key_facts k nv heq).2.2
  · exact h

/-- The fuelled single-denomination loop computes the remainder modulo
the coin value once the fuel covers the owed amount and the value is
positive. -/
theorem coinLoopFuel_fst (c : Nat) (hc : 0 < c) :
    ∀ fuel due, due ≤ fuel → (coinLoopFuel fuel c due).1 = due % c := by
  intro fuel
  induction fuel with
  | zero =>
    intro due h
    have h0 : due = 0 := Nat.le_zero.mp h
    subst h0
    simp [coinLoopFuel]
  | succ n ih =>
    intro due h
    simp only [coinLoopFuel]
    split
    · next hcd =>
      simp only
      rw [ih (due - c) (by omega)]
      conv_rhs => rw [show due = c + (due - c) from by omega]
      rw [Nat.add_mod_left]
    · next hcd =>
      simp only
      rw [Nat.mod_eq_of_lt (by omega)]

/-- The single-denomination loop at fuel `due` computes `due % c`. -/
theorem coinLoop_fst (c due : Nat) (hc : 0 < c) :
    (coinLoop c due).1 = due % c :=
  coinLoopFuel_fst c hc due due le_rfl

/-- The shipped denomination order. -/
theorem coin_values_eq : coin_values = [200, 100, 25, 10, 5] := by decide

/-- The residual owed amount after the full greedy loop over the shipped
denominations. -/
theorem changeLoop_fst (d : Nat) :
    (countChangeLoop coin_values d).1 = ((((d % 200) % 100) % 25) % 10) % 5 := by
  rw [coin_values_eq]
  simp only [countChangeLoop]
  rw [coinLoop_fst 200 d (by norm_num)]
  rw [coinLoop_fst 100 _ (by norm_num)]
  rw [coinLoop_fst 25 _ (by norm_num)]
  rw [coinLoop_fst 10 _ (by norm_num)]
  rw [coinLoop_fst 5 _ (by norm_num)]

/-- On a multiple of 5 the greedy loop over the shipped denominations
always pays out everything. -/
theorem changeLoop_zero (d : Nat) (hd : 5 ∣ d) :
    (countChangeLoop coin_values d).1 = 0 := by
  rw [changeLoop_fst]
  omega

/-- Invariant: from startup, the ledger balance and the owed change are
always multiples of 5. -/
theorem reach_inv (s : VM) (h : Reachable s) :
    5 ∣ s.money.amount ∧ 5 ∣ s.change_due := by
  induction h with
  | init => exact ⟨Nat.dvd_zero 5, Nat.dvd_zero 5⟩
  | step vm e hr ih =>
    obtain ⟨h5m, h5c⟩ := ih
    rcases vm with ⟨st, m, cd⟩
    simp only at h5m h5c
    cases st with
    | waiting =>
      simp only [update, waiting_update]
      split
      · exact ⟨add_coin_vm_dvd ⟨StateName.waiting, m, cd⟩ e h5m,
          (add_coin_vm_state ⟨StateName.waiting, m, cd⟩ e).2 ▸ h5c⟩
      · split
        · exact ⟨h5m, h5c⟩
        · split
          · exact ⟨h5m, h5c⟩
          · exact ⟨h5m, h5c⟩
    | add_coins =>
      simp only [update, add_coins_update]
      split
      · exact ⟨Nat.dvd_zero 5, h5m⟩
      · split
        · exact ⟨add_coin_vm_dvd ⟨StateName.add_coins, m, cd⟩ e h5m,
            (add_coin_vm_state ⟨StateName.add_coins, m, cd⟩ e).2 ▸ h5c⟩
        · split
          · split
            · next np heq =>
              split
              · simp only [deliver_on_entry, heq, Money.subtract]
                constructor
                · split
                  · exact Nat.dvd_sub' h5m (product_key_facts e np heq).2.2.2
                  · exact h5m
                · exact h5c
              · exact ⟨h5m, h5c⟩
            · exact ⟨h5m, h5c⟩
          · exact ⟨h5m, h5c⟩
    | deliver_product => exact ⟨h5m, h5c⟩
    | count_change =>
      simp only [update, count_change_update]
      have hz := changeLoop_zero cd h5c
      split <;> exact ⟨h5m, hz ▸ Nat.dvd_zero 5⟩

/-! ### Remaining claims -/

/-- Claim C7: the ledger debit performed inside
`DeliverProductState.on_entry` can never take its failure branch: no
`update` call, from any machine state whatsoever, ever emits the
`subtractFailed` signal, because entry into `deliver_product` happens
only from `add_coins` immediately after the balance-versus-price check
has passed. -/
theorem c7_debit_never_fails (vm : VM) (e : String) :
    ((update vm e).2.any isSubtractFailed) = false := by
  rcases vm with ⟨st, m, cd⟩
  cases st with
  | waiting =>
    simp only [update, waiting_update]
    split
    · rfl
    · split
      · rfl
      · split
        · rfl
        · rfl
  | add_coins =>
    simp only [update, add_coins_update]
    split
    · rfl
    · split
      · rfl
      · split
        · split
          · next np heq =>
            split
            · next hle =>
              simp only [Money.get_amount] at hle
              simp [deliver_on_entry, heq, Money.subtract, hle, isSubtractFailed]
            · rfl
          · rfl
        · rfl
  | deliver_product => rfl
  | count_change =>
    simp only [update, count_change_update]
    have hmap : ∀ l : List Nat,
        ((l.map Signal.dispenseCoin).any isSubtractFailed) = false := by
      intro l
      induction l with
      | nil => rfl
      | cons x xs ih => simp [isSubtractFailed, ih]
    split <;> exact hmap _

/-- Claim C9: every machine state reachable from startup by any event
sequence is `waiting`, `add_coins` or `count_change` — never the
transient `deliver_product`, whose entry action re-transitions to
`add_coins` within the same `update` call. -/
theorem c9_no_observable_delivering (s : VM) (h : Reachable s) :
    s.state = StateName.waiting ∨ s.state = StateName.add_coins ∨
      s.state = StateName.count_change := by
  induction h with
  | init => exact Or.inl rfl
  | step vm e hr ih =>
    rcases vm with ⟨st, m, cd⟩
    simp only at ih
    cases st with
    | waiting =>
      simp only [update, waiting_update]
      split
      · exact Or.inr (Or.inl rfl)
      · split
        · exact Or.inl rfl
        · split
          · exact Or.inl rfl
          · exact Or.inl rfl
    | add_coins =>
      simp only [update, add_coins_update]
      split
      · exact Or.inr (Or.inr rfl)
      · split
        · exact Or.inr (Or.inl ((add_coin_vm_state ⟨StateName.add_coins, m, cd⟩ e).1))
        · split
          · split
            · next np heq =>
              split
              · simp [deliver_on_entry, heq]
              · exact Or.inr (Or.inl rfl)
            · exact Or.inr (Or.inl rfl)
          · exact Or.inr (Or.inl rfl)
    | deliver_product =>
      rcases ih with h1 | h1 | h1 <;> exact absurd h1 (by decide)
    | count_change =>
      simp only [update, count_change_update]
      split
      · exact Or.inl rfl
      · exact Or.inr (Or.inr rfl)

/-- Claim C9 witness: the property at a concrete reachable state, one
step from startup. -/
theorem c9_witness :
    (update initVM "10").1.state = StateName.waiting ∨
    (update initVM "10").1.state = StateName.add_coins ∨
    (update initVM "10").1.state = StateName.count_change :=
  c9_no_observable_delivering (update initVM "10").1
    (Reachable.step initVM "10" Reachable.init)

/-- Claim C10: every shipped coin value and product price is a positive
multiple of 5; consequently, in every reachable machine state the ledger
balance and the owed change are multiples of 5, the greedy change loop
reduces the owed amount to exactly 0, and from any reachable
`count_change` state a single further update always reaches `waiting` —
the unrepresentable-change situation cannot occur in the shipped
machine. -/
theorem c10_shipped_config_safe :
    (∀ c ∈ setup_coins, 0 < c.2.2 ∧ 5 ∣ c.2.2) ∧
    (∀ p ∈ setup_products, 0 < p.2.2 ∧ 5 ∣ p.2.2) ∧
    ∀ s : VM, Reachable s →
      5 ∣ s.money.amount ∧ 5 ∣ s.change_due ∧
      (countChangeLoop coin_values s.change_due).1 = 0 ∧
      (s.state = StateName.count_change →
        ∀ e, (update s e).1.state = StateName.waiting) := by
  refine ⟨by decide, by decide, ?_⟩
  intro s hs
  obtain ⟨h5m, h5c⟩ := reach_inv s hs
  have hz := changeLoop_zero s.change_due h5c
  refine ⟨h5m, h5c, hz, ?_⟩
  intro hst e
  rcases s with ⟨st, m, cd⟩
  simp only at hst hz
  subst hst
  simp [update, count_change_update, hz]

/-- Claim C10 witness: the invariant and the guaranteed return to
`waiting` at the concrete reachable `count_change` state produced by
inserting a nickel and pressing return. -/
theorem c10_witness :
    (0 < 5 ∧ 5 ∣ 5) ∧
    5 ∣ ((update (update initVM "5").1 "RETURN").1).money.amount ∧
    5 ∣ ((update (update initVM "5").1 "RETURN").1).change_due ∧
    (update (update (update initVM "5").1 "RETURN").1 "tick").1.state =
      StateName.waiting := by
  have hr : Reachable (update (update initVM "5").1 "RETURN").1 :=
    Reachable.step _ _ (Reachable.step _ _ Reachable.init)
  have h := c10_shipped_config_safe.2.2 _ hr
  exact ⟨c10_shipped_config_safe.1 ("5", "5¢", 5) (by decide),
    h.1, h.2.1, h.2.2.2 (by decide) "tick"⟩

/-! ### Round-trip helper lemmas -/

/-- Running a concatenation of event lists composes the runs and
concatenates the emitted signals. -/
theorem run_append (vm : VM) (l1 l2 : List String) :
    run vm (l1 ++ l2) =
      ((run (run vm l1).1 l2).1, (run vm l1).2 ++ (run (run vm l1).1 l2).2) := by
  induction l1 generalizing vm with
  | nil => simp [run]
  | cons e es ih => simp [run, ih]

/-- Inserting a recognised coin while `waiting` credits its face value
and moves to `add_coins`, emitting nothing. -/
theorem step_coin_waiting (m : Money) (cd : Nat) (c : String)
    (h : coin_exists c = true) :
    update ⟨StateName.waiting, m, cd⟩ c =
      (⟨StateName.add_coins, ⟨m.amount + coinValue c⟩, cd⟩, []) := by
  obtain ⟨nv, hnv⟩ := coin_exists_get c h
  simp [update, waiting_update, h, add_coin_vm, hnv, Money.add, coinValue]

/-- Inserting a recognised coin while `add_coins` credits its face value
and stays, emitting nothing. -/
theorem step_coin_adding (m : Money) (cd : Nat) (c : String)
    (h : coin_exists c = true) :
    update ⟨StateName.add_coins, m, cd⟩ c =
      (⟨StateName.add_coins, ⟨m.amount + coinValue c⟩, cd⟩, []) := by
  obtain ⟨nv, hnv⟩ := coin_exists_get c h
  have hnr : (c == "RETURN") = false := (coin_key_facts c nv hnv).1
  simp [update, add_coins_update, hnr, h, add_coin_vm, hnv, Money.add, coinValue]

/-- Folding a list of recognised coins through `add_coins` accumulates
their total face value. -/
theorem run_coins_adding (cs : List String)
    (hcs : ∀ c ∈ cs, coin_exists c = true) (m : Money) (cd : Nat) :
    run ⟨StateName.add_coins, m, cd⟩ cs =
      (⟨StateName.add_coins, ⟨m.amount + coinSum cs⟩, cd⟩, []) := by
  induction cs generalizing m with
  | nil => simp [run, coinSum]
  | cons c rest ih =>
    have h1 := step_coin_adding m cd c (hcs c (by simp))
    simp only [run, h1]
    rw [ih (fun x hx => hcs x (by simp [hx])) ⟨m.amount + coinValue c⟩]
    simp [coinSum, Nat.add_assoc]

/-- From startup, a nonempty list of recognised coins ends in
`add_coins` holding their total face value. -/
theorem run_coins_from_init (cs : List String) (hne : cs ≠ [])
    (hcs : ∀ c ∈ cs, coin_exists c = true) :
    run initVM cs = (⟨StateName.add_coins, ⟨coinSum cs⟩, 0⟩, []) := by
  cases cs with
  | nil => exact absurd rfl hne
  | cons c rest =>
    have h1 := step_coin_waiting ⟨0⟩ 0 c (hcs c (by simp))
    simp only [initVM, run, h1]
    rw [run_coins_adding rest (fun x hx => hcs x (by simp [hx]))]
    simp [coinSum]

/-- Selecting an affordable product in `add_coins` debits exactly its
price, dispenses it, and returns to `add_coins`. -/
theorem step_select (m : Money) (cd : Nat) (pkey name : String) (price : Nat)
    (hp : get_product pkey = some (name, price)) (hle : price ≤ m.amount) :
    update ⟨StateName.add_coins, m, cd⟩ pkey =
      (⟨StateName.add_coins, ⟨m.amount - price⟩, cd⟩,
       [Signal.dispenseProduct name]) := by
  obtain ⟨hcoin, hret, _, _⟩ := product_key_facts pkey (name, price) hp
  have hpe : product_exists pkey = true := product_exists_of_get pkey (name, price) hp
  simp [update, add_coins_update, hret, hcoin, hpe, hp, Money.get_amount, hle,
    deliver_on_entry, Money.subtract]

/-- Claim C8: for every catalog product, inserting recognised coins
whose face values sum exactly to its price, selecting the product, then
pressing return and letting the change tick run, dispenses the product,
yields an owed change of 0 with zero dispense-coin signals, and ends in
`waiting` with balance 0. -/
theorem c8_round_trip (pkey name : String) (price : Nat)
    (hp : get_product pkey = some (name, price))
    (cs : List String) (hcs : ∀ c ∈ cs, coin_exists c = true)
    (hsum : coinSum cs = price) :
    run initVM (cs ++ [pkey, "RETURN", "__TIMEOUT__"]) =
      (⟨StateName.waiting, ⟨0⟩, 0⟩, [Signal.dispenseProduct name]) ∧
    (run initVM (cs ++ [pkey, "RETURN"])).1.change_due = 0 := by
  have hpos : 0 < price := (product_key_facts pkey (name, price) hp).2.2.1
  have hne : cs ≠ [] := by
    intro h
    subst h
    simp [coinSum] at hsum
    omega
  have h1 : run initVM cs = (⟨StateName.add_coins, ⟨price⟩, 0⟩, []) := by
    rw [run_coins_from_init cs hne hcs, hsum]
  have h2 : update ⟨StateName.add_coins, ⟨price⟩, 0⟩ pkey =
      (⟨StateName.add_coins, ⟨0⟩, 0⟩, [Signal.dispenseProduct name]) := by
    have := step_select ⟨price⟩ 0 pkey name price hp (le_refl price)
    simpa [Nat.sub_self] using this
  have h3 : update ⟨StateName.add_coins, ⟨0⟩, 0⟩ "RETURN" =
      (⟨StateName.count_change, ⟨0⟩, 0⟩, []) := rfl
  have h4 : update ⟨StateName.count_change, ⟨0⟩, 0⟩ "__TIMEOUT__" =
      (⟨StateName.waiting, ⟨0⟩, 0⟩, []) := rfl
  constructor
  · rw [run_append, h1]
    simp [run, h2, h3, h4]
  · rw [run_append, h1]
    simp [run, h2, h3]

/-- Claim C8 witness: the round trip for "gum" (25 cents) paid with one
25-cent coin. -/
theorem c8_round_trip_witness :
    run initVM (["25"] ++ ["gum", "RETURN", "__TIMEOUT__"]) =
      (⟨StateName.waiting, ⟨0⟩, 0⟩, [Signal.dispenseProduct "GUM"]) ∧
    (run initVM (["25"] ++ ["gum", "RETURN"])).1.change_due = 0 :=
  c8_round_trip "gum" "GUM" 25 (by decide) ["25"] (by decide) (by decide)

end Vending
